import Mathlib

/- Verification of the persistent streaming upload engine of
   `stress_test_stream.py`: the frame codec `make_frame`, the WAV splitter
   `split_wav`, the frame sequencer generator `body_gen`, and the
   retry/backoff loop of `streamer`.

   Byte strings are modelled as `List Nat` (one entry per byte), machine
   integers as `Nat`, and real-valued durations as `ℚ`.  Fallible Python
   code (raised exceptions) is modelled with `Option`. -/

/-- `PAGE = 32_768`, the payload size per frame (32 KiB). -/
def PAGE : Nat := 32768

/-- `SEQ_META = 0xFFFFFF`, reserved for future metadata frames. -/
def SEQ_META : Nat := 0xFFFFFF

/-- `struct.pack("<I", n)`: the four little-endian bytes of an unsigned
32-bit integer; `none` models the `struct.error` raised when `n` does not
fit into 32 bits. -/
def packU32LE (n : Nat) : Option (List Nat) :=
  if n < 4294967296 then
    some [n % 256, n / 256 % 256, n / 65536 % 256, n / 16777216 % 256]
  else none

/-- `make_frame(seq, payload)`: the 3-byte sequence field
(`struct.pack("<I", seq)[:3]`), the 3-byte payload-length field
(`struct.pack("<I", len(payload))[:3]`), then the payload bytes. -/
def make_frame (seq : Nat) (payload : List Nat) : Option (List Nat) :=
  (packU32LE seq).bind fun seq_bytes =>
    (packU32LE payload.length).map fun len_bytes =>
      seq_bytes.take 3 ++ len_bytes.take 3 ++ payload

/-- The 3-byte little-endian encoding of a value below 2^24, written the way
the wire-format section of the spec describes the field layout; used to
compare `make_frame` against the documented layout. -/
def le3 (n : Nat) : List Nat := [n % 256, n / 256 % 256, n / 65536 % 256]

/-- Modelled from the spec: the receiver-side `decode` is not part of this
repository (the repository only contains the sender).  Per the wire-format
table, a frame is a 3-byte little-endian sequence, a 3-byte little-endian
payload length, and exactly that many payload bytes. -/
def decode (w : List Nat) : Option (Nat × List Nat) :=
  match w with
  | s0 :: s1 :: s2 :: l0 :: l1 :: l2 :: rest =>
    if rest.length = l0 + 256 * l1 + 65536 * l2 then
      some (s0 + 256 * s1 + 65536 * s2, rest)
    else none
  | _ => none

/-- The four ASCII bytes of the literal `b"data"`. -/
def dataTag : List Nat := [100, 97, 116, 97]

/-- `haystack.find(needle)` on Python byte strings: the index of the first
occurrence of `needle`, or `none` where Python returns `-1`. -/
def bytesFind (needle : List Nat) : List Nat → Option Nat
  | [] => if needle.isPrefixOf [] then some 0 else none
  | a :: t =>
    if needle.isPrefixOf (a :: t) then some 0
    else (bytesFind needle t).map (fun i => i + 1)

/-- `split_wav(wav_bytes)`: everything up through `"data"` plus its 4-byte
size field is the header (`wav_bytes[:idx + 8]`), the rest is the PCM view;
`none` models the `ValueError` raised when no `"data"` tag is found. -/
def split_wav (wav : List Nat) : Option (List Nat × List Nat) :=
  match bytesFind dataTag wav with
  | none => none
  | some idx => some (wav.take (idx + 8), wav.drop (idx + 8))

/-- One observable action of the `body_gen` generator: yielding a frame
(recorded abstractly as its sequence number and payload, which `make_frame`
then serialises onto the wire), bumping the per-listener `seconds_sent`
counter, awaiting a sleep, or finishing a file (the `DONE` dashboard event
together with the `files_sent` update). -/
inductive Emit where
  | frame (seq : Nat) (payload : List Nat)
  | addSeconds (amount : ℚ)
  | sleep (duration : ℚ)
  | fileDone
deriving DecidableEq

/-- The inner page loop of `body_gen` (`while current_offset < len(pcm)`):
the slice `pcm[current_offset : current_offset + P]` is
`(pcm.drop off).take P`; after yielding a page the sequence counter becomes
`(current_seq + 1) & 0xFFFFFF`, `seconds_sent` grows by
`min(PAGE, len(payload)) / bytes_per_sec`, and the loop sleeps `page_dur`.
The source fixes the page size to the global `PAGE`; this model exposes it
as the parameter `P` (for `P = 0` the Python loop would never advance, and
the model returns `[]` in that unreachable configuration). -/
def pageLoop (pcm : List Nat) (P : Nat) (pd : ℚ) (bps : Nat) (off seq : Nat) : List Emit :=
  if h : off < pcm.length ∧ 0 < P then
    Emit.frame seq ((pcm.drop off).take P) ::
      Emit.addSeconds (((min P ((pcm.drop off).take P).length : Nat) : ℚ) / (bps : ℚ)) ::
        Emit.sleep pd ::
          pageLoop pcm P pd bps (off + P) ((seq + 1) &&& 0xFFFFFF)
  else []
termination_by pcm.length - off
decreasing_by simp_wf; omega

/-- One cycle of `body_gen`: the header frame with sequence 0, then the page
loop entered with `current_offset = 0` and `current_seq = 1`, then the
`DONE` bookkeeping and the inter-cycle `await asyncio.sleep(interval_s)`. -/
def cycleTrace (header pcm : List Nat) (P : Nat) (pd : ℚ) (bps : Nat) (interval : ℚ) :
    List Emit :=
  Emit.frame 0 header ::
    (pageLoop pcm P pd bps 0 1 ++ [Emit.fileDone, Emit.sleep interval])

/-- `cycles` iterations of the infinite `while True` loop inside `body_gen`.
Every iteration assigns `current_seq = 1` and `current_offset = 0` before
reading either, so successive cycles produce identical traces. -/
def cyclesTrace (header pcm : List Nat) (P : Nat) (pd : ℚ) (bps : Nat) (interval : ℚ) :
    Nat → List Emit
  | 0 => []
  | n + 1 =>
    cycleTrace header pcm P pd bps interval ++ cyclesTrace header pcm P pd bps interval n

/-- The `nonlocal` streaming-progress state a fresh `body_gen` generator is
entered with on a (re)connection attempt: `current_offset`, `current_seq`,
`in_interval_wait` and `interval_wait_remaining`. -/
structure GenState where
  current_offset : Nat
  current_seq : Nat
  in_interval_wait : Bool
  interval_wait_remaining : ℚ
deriving DecidableEq

/-- The state of the nonlocal variables when `streamer` first starts. -/
def GenState.init : GenState := ⟨0, 0, false, 0⟩

/-- The trace of a fresh `body_gen` generator entered with nonlocal state
`st`, observed for `cycles` cycles: first the `in_interval_wait` catch-up
sleep, then the cycle loop.  `st.current_offset` and `st.current_seq` are
assigned before they are ever read, so — exactly as in the source — they do
not influence the emitted trace. -/
def body_gen (header pcm : List Nat) (P : Nat) (pd : ℚ) (bps : Nat) (interval : ℚ)
    (st : GenState) (cycles : Nat) : List Emit :=
  (if st.in_interval_wait = true ∧ 0 < st.interval_wait_remaining
    then [Emit.sleep st.interval_wait_remaining] else [])
  ++ cyclesTrace header pcm P pd bps interval cycles

/-- `page_dur = PAGE / bytes_per_sec`, computed once in `main`. -/
def page_dur (bps : Nat) : ℚ := (PAGE : ℚ) / (bps : ℚ)

/-- `total_pages = (len(pcm) + PAGE - 1) // PAGE` from `streamer`,
generalised to the remaining length `L` and page size `P`: the number of
pages, i.e. `ceil(L / P)`. -/
def numPages (L P : Nat) : Nat := (L + P - 1) / P

/-- The frames occurring in a trace, in emission order. -/
def frameEvents (tr : List Emit) : List (Nat × List Nat) :=
  tr.filterMap fun e =>
    match e with
    | Emit.frame s p => some (s, p)
    | _ => none

/-- The three trace entries the page loop emits for its `i`-th page when
entered at `(off, seq)`; the closed form established in
`pageLoop_eq_flatten`. -/
def pageBlock (pcm : List Nat) (P : Nat) (pd : ℚ) (bps : Nat) (off seq i : Nat) :
    List Emit :=
  [Emit.frame ((seq + i) % 16777216) ((pcm.drop (off + i * P)).take P),
   Emit.addSeconds (((min P ((pcm.drop (off + i * P)).take P).length : Nat) : ℚ) / (bps : ℚ)),
   Emit.sleep pd]

/-- `max_retry_delay = 60`, the cap on the backoff delay in seconds. -/
def max_retry_delay : Nat := 60

/-- How one pass of the `while True` retry loop of `streamer` ends: the
connection opened (and the response later closed normally), a recognised
transient fault (`aiohttp.ClientError`, `asyncio.TimeoutError`,
`ConnectionError`), or any other exception. -/
inductive Outcome where
  | ok
  | transient
  | unexpected
deriving DecidableEq

/-- One pass of the retry loop: the `retry_count` after the pass and the
delay slept before the next pass.  A successful connection resets the
counter to 0 and sleeps nothing; a transient fault increments it and sleeps
`min(2 ** retry_count, max_retry_delay)`; the generic `except Exception`
branch leaves the counter untouched and sleeps 5 seconds. -/
def streamerStep (rc : Nat) : Outcome → Nat × Option Nat
  | Outcome.ok => (0, none)
  | Outcome.transient => (rc + 1, some (min (2 ^ (rc + 1)) max_retry_delay))
  | Outcome.unexpected => (rc, some 5)

/-- The retry loop run over a list of pass outcomes: the final `retry_count`
and the delays slept, in order. -/
def streamerRun (rc : Nat) : List Outcome → Nat × List Nat
  | [] => (rc, [])
  | o :: rest =>
    let s := streamerStep rc o
    let r := streamerRun s.1 rest
    (r.1, s.2.toList ++ r.2)

/-- Masking with `0xFFFFFF` is reduction modulo 2^24. -/
lemma land_mask (n : Nat) : n &&& 0xFFFFFF = n % 16777216 := by
  have h : (0xFFFFFF : Nat) = 2 ^ 24 - 1 := by norm_num
  have h2 : (16777216 : Nat) = 2 ^ 24 := by norm_num
  rw [h, h2, Nat.and_pow_two_sub_one_eq_mod]

@[simp] lemma frameEvents_nil : frameEvents [] = [] := rfl

@[simp] lemma frameEvents_cons_frame (s : Nat) (p : List Nat) (tr : List Emit) :
    frameEvents (Emit.frame s p :: tr) = (s, p) :: frameEvents tr := rfl

@[simp] lemma frameEvents_cons_addSeconds (q : ℚ) (tr : List Emit) :
    frameEvents (Emit.addSeconds q :: tr) = frameEvents tr := rfl

@[simp] lemma frameEvents_cons_sleep (q : ℚ) (tr : List Emit) :
    frameEvents (Emit.sleep q :: tr) = frameEvents tr := rfl

@[simp] lemma frameEvents_cons_fileDone (tr : List Emit) :
    frameEvents (Emit.fileDone :: tr) = frameEvents tr := rfl

@[simp] lemma frameEvents_append (a b : List Emit) :
    frameEvents (a ++ b) = frameEvents a ++ frameEvents b :=
  List.filterMap_append a b _

/-- An empty remainder yields no pages. -/
lemma numPages_zero (P : Nat) : numPages 0 P = 0 := by
  unfold numPages
  rcases Nat.eq_zero_or_pos P with h | h
  · simp [h]
  · exact Nat.div_eq_of_lt (by omega)

/-- Peeling one page off a non-empty remainder. -/
lemma numPages_step (r P : Nat) (hP : 0 < P) (hr : 0 < r) :
    numPages r P = numPages (r - P) P + 1 := by
  unfold numPages
  rcases le_or_lt r P with h | h
  · have h1 : r - P = 0 := by omega
    have h2 : r + P - 1 = (r - 1) + P := by omega
    rw [h1, h2, Nat.add_div_right _ hP, Nat.div_eq_of_lt (by omega)]
    have h3 : 0 + P - 1 = P - 1 := by omega
    rw [h3, Nat.div_eq_of_lt (by omega)]
  · have h2 : r + P - 1 = (r - 1) + P := by omega
    have h3 : r - P + P - 1 = (r - P - 1) + P := by omega
    have h4 : r - 1 = (r - P - 1) + P := by omega
    rw [h2, h4, Nat.add_div_right _ hP, h3, Nat.add_div_right _ hP]

/-- Re-indexing a page block after one loop step. -/
lemma pageBlock_shift (pcm : List Nat) (P : Nat) (pd : ℚ) (bps : Nat) (off seq i : Nat) :
    pageBlock pcm P pd bps (off + P) ((seq + 1) % 16777216) i
      = pageBlock pcm P pd bps off seq (i + 1) := by
  unfold pageBlock
  have h1 : off + P + i * P = off + (i + 1) * P := by
    rw [add_one_mul]
    omega
  have h2 : ((seq + 1) % 16777216 + i) % 16777216 = (seq + (i + 1)) % 16777216 := by omega
  rw [h1, h2]

/-- The first page block at the loop entry point itself. -/
lemma pageBlock_zero (pcm : List Nat) (P : Nat) (pd : ℚ) (bps : Nat) (off seq : Nat)
    (hs : seq < 16777216) :
    pageBlock pcm P pd bps off seq 0
      = [Emit.frame seq ((pcm.drop off).take P),
         Emit.addSeconds (((min P ((pcm.drop off).take P).length : Nat) : ℚ) / (bps : ℚ)),
         Emit.sleep pd] := by
  unfold pageBlock
  have h1 : off + 0 * P = off := by omega
  have h2 : (seq + 0) % 16777216 = seq := by omega
  rw [h1, h2]

/-- Closed form of the page loop: the flat list of its page blocks. -/
lemma pageLoop_eq_flatten (pcm : List Nat) (P : Nat) (pd : ℚ) (bps : Nat) :
    ∀ k off seq, 0 < P → seq < 16777216 → pcm.length - off ≤ k →
      pageLoop pcm P pd bps off seq
        = ((List.range (numPages (pcm.length - off) P)).map
            (pageBlock pcm P pd bps off seq)).flatten := by
  intro k
  induction k with
  | zero =>
    intro off seq hP hs hk
    rw [pageLoop.eq_def]
    have hoff : ¬ (off < pcm.length ∧ 0 < P) := by omega
    rw [dif_neg hoff]
    have h0 : pcm.length - off = 0 := by omega
    rw [h0, numPages_zero]
    simp
  | succ k ih =>
    intro off seq hP hs hk
    rw [pageLoop.eq_def]
    by_cases hoff : off < pcm.length
    · rw [dif_pos ⟨hoff, hP⟩, land_mask,
        ih (off + P) ((seq + 1) % 16777216) hP (Nat.mod_lt _ (by omega)) (by omega)]
      have hn : numPages (pcm.length - off) P = numPages (pcm.length - (off + P)) P + 1 := by
        have h1 : pcm.length - (off + P) = (pcm.length - off) - P := by omega
        rw [h1]
        exact numPages_step _ P hP (by omega)
      rw [hn, List.range_succ_eq_map, List.map_cons, List.flatten_cons, List.map_map]
      have hmap : (List.range (numPages (pcm.length - (off + P)) P)).map
            (pageBlock pcm P pd bps (off + P) ((seq + 1) % 16777216))
          = (List.range (numPages (pcm.length - (off + P)) P)).map
            (pageBlock pcm P pd bps off seq ∘ Nat.succ) := by
        apply List.map_congr_left
        intro i _
        exact pageBlock_shift pcm P pd bps off seq i
      rw [hmap, pageBlock_zero pcm P pd bps off seq hs]
      rfl
    · rw [dif_neg (by omega)]
      have h0 : pcm.length - off = 0 := by omega
      rw [h0, numPages_zero]
      simp

/-- The frames among a flat list of page blocks. -/
lemma frameEvents_blocks (pcm : List Nat) (P : Nat) (pd : ℚ) (bps : Nat) (off seq : Nat) :
    ∀ l : List Nat,
      frameEvents ((l.map (pageBlock pcm P pd bps off seq)).flatten)
        = l.map (fun i => ((seq + i) % 16777216, (pcm.drop (off + i * P)).take P)) := by
  intro l
  induction l with
  | nil => rfl
  | cons a t ih =>
    rw [List.map_cons, List.flatten_cons, frameEvents_append, ih]
    rfl

/-- The frames the page loop emits, in closed form. -/
lemma frameEvents_pageLoop (pcm : List Nat) (P : Nat) (pd : ℚ) (bps : Nat) (off seq : Nat)
    (hP : 0 < P) (hs : seq < 16777216) :
    frameEvents (pageLoop pcm P pd bps off seq)
      = (List.range (numPages (pcm.length - off) P)).map
          (fun i => ((seq + i) % 16777216, (pcm.drop (off + i * P)).take P)) := by
  rw [pageLoop_eq_flatten pcm P pd bps pcm.length off seq hP hs (Nat.sub_le _ _),
    frameEvents_blocks]

/-- Concatenating the consecutive pages rebuilds the remaining PCM bytes. -/
lemma flatten_pages (pcm : List Nat) (P : Nat) (hP : 0 < P) :
    ∀ k off, pcm.length - off ≤ k →
      ((List.range (numPages (pcm.length - off) P)).map
          (fun i => (pcm.drop (off + i * P)).take P)).flatten = pcm.drop off := by
  intro k
  induction k with
  | zero =>
    intro off hk
    have h0 : pcm.length - off = 0 := by omega
    rw [h0, numPages_zero]
    have hd : pcm.drop off = [] := List.drop_eq_nil_of_le (by omega)
    simp [hd]
  | succ k ih =>
    intro off hk
    by_cases hoff : off < pcm.length
    · have hn : numPages (pcm.length - off) P = numPages (pcm.length - (off + P)) P + 1 := by
        have h1 : pcm.length - (off + P) = (pcm.length - off) - P := by omega
        rw [h1]
        exact numPages_step _ P hP (by omega)
      rw [hn, List.range_succ_eq_map, List.map_cons, List.flatten_cons, List.map_map]
      have hmap : (List.range (numPages (pcm.length - (off + P)) P)).map
            ((fun i => (pcm.drop (off + i * P)).take P) ∘ Nat.succ)
          = (List.range (numPages (pcm.length - (off + P)) P)).map
            (fun i => (pcm.drop (off + P + i * P)).take P) := by
        apply List.map_congr_left
        intro i _
        have h2 : off + (i + 1) * P = off + P + i * P := by
          rw [add_one_mul]
          omega
        simp only [Function.comp]
        rw [show Nat.succ i = i + 1 from rfl, h2]
      rw [hmap, ih (off + P) (by omega)]
      have h3 : off + 0 * P = off := by omega
      have h5 : pcm.drop (off + P) = (pcm.drop off).drop P := by
        rw [List.drop_drop]
        try congr 1
        try omega
      rw [h3, h5, List.take_append_drop]
    · have h0 : pcm.length - off = 0 := by omega
      rw [h0, numPages_zero]
      have hd : pcm.drop off = [] := List.drop_eq_nil_of_le (by omega)
      simp [hd]

/-- Delays slept over a run of consecutive transient faults, in closed
form: the i-th fault is handled with `min(2 ^ (rc + i + 1), 60)` seconds. -/
lemma streamerRun_transient (n : Nat) :
    ∀ rc, (streamerRun rc (List.replicate n Outcome.transient)).2
      = (List.range n).map (fun i => min (2 ^ (rc + i + 1)) max_retry_delay) := by
  induction n with
  | zero => intro rc; rfl
  | succ n ih =>
    intro rc
    rw [List.replicate_succ]
    have hstep : (streamerRun rc (Outcome.transient :: List.replicate n Outcome.transient)).2
        = min (2 ^ (rc + 1)) max_retry_delay ::
          (streamerRun (rc + 1) (List.replicate n Outcome.transient)).2 := rfl
    rw [hstep, ih (rc + 1), List.range_succ_eq_map, List.map_cons, List.map_map]
    norm_num
    intro a ha
    have h4 : rc + 1 + a + 1 = rc + (a + 1) + 1 := by omega
    rw [h4]

/-- When `bytesFind` returns an index, the needle occurs there and nowhere
earlier. -/
lemma bytesFind_some (needle : List Nat) :
    ∀ hay idx, bytesFind needle hay = some idx →
      needle.isPrefixOf (hay.drop idx) = true ∧
      ∀ j, j < idx → needle.isPrefixOf (hay.drop j) = false := by
  intro hay
  induction hay with
  | nil =>
    intro idx h
    unfold bytesFind at h
    by_cases hp : needle.isPrefixOf []
    · rw [if_pos hp] at h
      cases h
      exact ⟨hp, by omega⟩
    · rw [if_neg hp] at h
      cases h
  | cons a t ih =>
    intro idx h
    unfold bytesFind at h
    by_cases hp : needle.isPrefixOf (a :: t)
    · rw [if_pos hp] at h
      cases h
      exact ⟨hp, by omega⟩
    · rw [if_neg hp] at h
      cases hfind : bytesFind needle t with
      | none => rw [hfind] at h; cases h
      | some j =>
        rw [hfind] at h
        have h3 : j + 1 = idx := by simpa using h
        subst h3
        rcases ih j hfind with ⟨h1, h2⟩
        refine ⟨h1, ?_⟩
        intro m hm
        cases m with
        | zero =>
          simpa using Bool.eq_false_iff.mpr hp
        | succ m =>
          exact h2 m (by omega)

/-- When `bytesFind` finds nothing, the needle occurs nowhere. -/
lemma bytesFind_none (needle : List Nat) :
    ∀ hay, bytesFind needle hay = none →
      ∀ j, needle.isPrefixOf (hay.drop j) = false := by
  intro hay
  induction hay with
  | nil =>
    intro h j
    unfold bytesFind at h
    by_cases hp : needle.isPrefixOf []
    · rw [if_pos hp] at h; cases h
    · simpa using Bool.eq_false_iff.mpr hp
  | cons a t ih =>
    intro h j
    unfold bytesFind at h
    by_cases hp : needle.isPrefixOf (a :: t)
    · rw [if_pos hp] at h; cases h
    · rw [if_neg hp] at h
      cases hfind : bytesFind needle t with
      | none =>
        cases j with
        | zero => simpa using Bool.eq_false_iff.mpr hp
        | succ m => exact ih hfind m
      | some i => rw [hfind] at h; cases h

/-- Recombining the 3 little-endian bytes of a value below 2^24 gives the
value back. -/
lemma le3_val (n : Nat) (h : n < 16777216) :
    n % 256 + 256 * (n / 256 % 256) + 65536 * (n / 65536 % 256) = n := by
  omega

/-- C1: for every `sequence ≤ 0xFFFFFF` and every payload with
`len(payload) ≤ 0xFFFFFF`, `make_frame` produces exactly the 3-byte
little-endian sequence, then the 3-byte little-endian payload length, then
the payload bytes, and decoding that frame recovers `(sequence, payload)`
unchanged. -/
theorem frame_roundtrip (seq : Nat) (payload : List Nat)
    (hs : seq ≤ 0xFFFFFF) (hp : payload.length ≤ 0xFFFFFF) :
    make_frame seq payload = some (le3 seq ++ le3 payload.length ++ payload) ∧
    decode (le3 seq ++ le3 payload.length ++ payload) = some (seq, payload) := by
  constructor
  · unfold make_frame packU32LE
    rw [if_pos (by omega), if_pos (by omega)]
    simp [le3]
  · have hd : decode (le3 seq ++ le3 payload.length ++ payload)
        = if payload.length = payload.length % 256 + 256 * (payload.length / 256 % 256)
              + 65536 * (payload.length / 65536 % 256) then
            some (seq % 256 + 256 * (seq / 256 % 256) + 65536 * (seq / 65536 % 256), payload)
          else none := rfl
    rw [hd, if_pos (le3_val payload.length (by omega)).symm, le3_val seq (by omega)]

/-- C1 witness at `sequence = 258`, `payload = [7, 9]`. -/
theorem frame_roundtrip_witness :
    258 ≤ 0xFFFFFF ∧ ([7, 9] : List Nat).length ≤ 0xFFFFFF ∧
    (make_frame 258 [7, 9] = some (le3 258 ++ le3 ([7, 9] : List Nat).length ++ [7, 9]) ∧
     decode (le3 258 ++ le3 ([7, 9] : List Nat).length ++ [7, 9]) = some (258, [7, 9])) :=
  ⟨by decide, by decide, frame_roundtrip 258 [7, 9] (by decide) (by decide)⟩

/-- C10 (amended): `make_frame` accepts every `sequence < 2^32` — including
values above `0xFFFFFF` — and every payload of fewer than 2^32 bytes, and
the encoded sequence field is the 3-byte little-endian encoding of
`sequence mod 2^24` (likewise for the length field); only a payload of 2^32
bytes or more makes the underlying `struct.pack` call fail. -/
theorem make_frame_mod24 (seq : Nat) (payload : List Nat)
    (hs : seq < 4294967296) (hp : payload.length < 4294967296) :
    make_frame seq payload
      = some (le3 (seq % 16777216) ++ le3 (payload.length % 16777216) ++ payload) := by
  unfold make_frame packU32LE
  rw [if_pos hs, if_pos hp]
  simp only [Option.bind_some, Option.map_some, List.take_cons, List.take_zero, le3]
  show some _ = some _
  congr 1
  have h1 : seq % 16777216 % 256 = seq % 256 := by omega
  have h2 : seq % 16777216 / 256 % 256 = seq / 256 % 256 := by omega
  have h3 : seq % 16777216 / 65536 % 256 = seq / 65536 % 256 := by omega
  have h4 : payload.length % 16777216 % 256 = payload.length % 256 := by omega
  have h5 : payload.length % 16777216 / 256 % 256 = payload.length / 256 % 256 := by omega
  have h6 : payload.length % 16777216 / 65536 % 256 = payload.length / 65536 % 256 := by
    omega
  rw [h1, h2, h3, h4, h5, h6]
  rfl

/-- C10 witness at `sequence = 0x1000005 > 0xFFFFFF`, `payload = [7]`. -/
theorem make_frame_mod24_witness :
    16777221 < 4294967296 ∧ ([7] : List Nat).length < 4294967296 ∧
    make_frame 16777221 [7]
      = some (le3 (16777221 % 16777216) ++ le3 (([7] : List Nat).length % 16777216) ++ [7]) :=
  ⟨by decide, by decide, make_frame_mod24 16777221 [7] (by decide) (by decide)⟩

/-- C10 counterexample: with a payload of 2^32 bytes the claim "make_frame
does not fail" is false — `struct.pack("<I", len(payload))` overflows even
though the sequence is in range. -/
theorem make_frame_huge_payload_cex :
    make_frame 0 (List.replicate 4294967296 0) = none := by
  unfold make_frame packU32LE
  rw [List.length_replicate]
  rw [if_pos (by norm_num), if_neg (by norm_num)]
  rfl

/-- C5 (amended): `retry_count` resets to 0 on every successful connection
open and increments by exactly 1 on every recognised transient fault, but a
fault outside the recognised transient class leaves it unchanged — the
source's generic `except Exception` branch never touches `retry_count`. -/
theorem retry_count_transitions (rc : Nat) :
    (streamerStep rc Outcome.ok).1 = 0 ∧
    (streamerStep rc Outcome.transient).1 = rc + 1 ∧
    (streamerStep rc Outcome.unexpected).1 = rc :=
  ⟨rfl, rfl, rfl⟩

/-- C5 counterexample: an unexpected fault at `retry_count = 3` leaves the
counter at 3, refuting the claim that every fault increments it by 1. -/
theorem retry_count_unexpected_cex :
    (streamerStep 3 Outcome.unexpected).1 = 3 ∧
    (streamerStep 3 Outcome.unexpected).1 ≠ 3 + 1 := by
  exact ⟨rfl, by decide⟩

/-- C4: after `n` successive transient faults with no intervening success,
the delays slept are exactly `min(2^k, 60)` seconds for `k = 1, …, n`, so
the n-th delay is `min(2^n, 60)`; no delay ever exceeds 60 seconds; and the
first eight delays are 2, 4, 8, 16, 32, 60, 60, 60. -/
theorem backoff_delays (n : Nat) :
    (streamerRun 0 (List.replicate n Outcome.transient)).2
      = (List.range n).map (fun i => min (2 ^ (i + 1)) 60) ∧
    (∀ d, d ∈ (streamerRun 0 (List.replicate n Outcome.transient)).2 → d ≤ 60) ∧
    (streamerRun 0 (List.replicate 8 Outcome.transient)).2
      = [2, 4, 8, 16, 32, 60, 60, 60] := by
  have hrun : (streamerRun 0 (List.replicate n Outcome.transient)).2
      = (List.range n).map (fun i => min (2 ^ (i + 1)) 60) := by
    rw [streamerRun_transient n 0]
    apply List.map_congr_left
    intro i _
    show min (2 ^ (0 + i + 1)) max_retry_delay = min (2 ^ (i + 1)) 60
    norm_num [max_retry_delay]
  refine ⟨hrun, ?_, by decide⟩
  intro d hd
  rw [hrun] at hd
  rcases List.mem_map.mp hd with ⟨i, _, hi⟩
  omega

/-- C4 witness: the concrete delays after three consecutive transient
faults. -/
theorem backoff_delays_witness :
    (streamerRun 0 (List.replicate 3 Outcome.transient)).2
      = (List.range 3).map (fun i => min (2 ^ (i + 1)) 60) :=
  (backoff_delays 3).1

/-- C2: one cycle of the frame sequencer emits exactly one header frame
first, then exactly `ceil(L / P)` page frames, and the concatenation of the
page payloads in emission order is exactly the original PCM bytes. -/
theorem cycle_frame_structure (header pcm : List Nat) (P : Nat) (pd : ℚ) (bps : Nat)
    (interval : ℚ) (hP : 0 < P) :
    frameEvents (cycleTrace header pcm P pd bps interval)
      = (0, header) :: frameEvents (pageLoop pcm P pd bps 0 1) ∧
    (frameEvents (pageLoop pcm P pd bps 0 1)).length = (pcm.length + P - 1) / P ∧
    ((frameEvents (pageLoop pcm P pd bps 0 1)).map Prod.snd).flatten = pcm := by
  have hfe := frameEvents_pageLoop pcm P pd bps 0 1 hP (by norm_num)
  refine ⟨?_, ?_, ?_⟩
  · unfold cycleTrace
    rw [frameEvents_cons_frame, frameEvents_append]
    simp [frameEvents]
  · rw [hfe]
    simp [numPages]
  · rw [hfe, List.map_map]
    have hsnd : (List.range (numPages (pcm.length - 0) P)).map
          (Prod.snd ∘ fun i => ((1 + i) % 16777216, (pcm.drop (0 + i * P)).take P))
        = (List.range (numPages (pcm.length - 0) P)).map
          (fun i => (pcm.drop (0 + i * P)).take P) := rfl
    rw [hsnd, flatten_pages pcm P hP pcm.length 0 (by omega)]
    rfl

/-- C2 witness at `header = [9]`, `pcm = [5, 6, 7]`, `P = 2`. -/
theorem cycle_frame_structure_witness :
    0 < 2 ∧
    (frameEvents (cycleTrace [9] [5, 6, 7] 2 0 1 0)
       = (0, [9]) :: frameEvents (pageLoop [5, 6, 7] 2 0 1 0 1) ∧
     (frameEvents (pageLoop [5, 6, 7] 2 0 1 0 1)).length
       = (([5, 6, 7] : List Nat).length + 2 - 1) / 2 ∧
     ((frameEvents (pageLoop [5, 6, 7] 2 0 1 0 1)).map Prod.snd).flatten = [5, 6, 7]) :=
  ⟨by decide, cycle_frame_structure [9] [5, 6, 7] 2 0 1 0 (by decide)⟩

/-- C3 (amended): within one cycle the header frame carries sequence 0 and
the i-th page frame carries `(1 + i) mod 2^24`; hence the first page
carries 1, consecutive page sequence numbers increment by exactly 1 and
wrap to 0 exactly when the incremented counter exceeds `0xFFFFFF`; sequence
0 is reserved to the header frame in every cycle of at most `0xFFFFFF`
pages (in a cycle of 2^24 or more pages the wrapped counter reaches 0 on a
page frame as well). -/
theorem cycle_sequence_invariant (header pcm : List Nat) (P : Nat) (pd : ℚ) (bps : Nat)
    (interval : ℚ) (hP : 0 < P) :
    (frameEvents (cycleTrace header pcm P pd bps interval)).map Prod.fst
      = 0 :: (List.range (numPages pcm.length P)).map (fun i => (1 + i) % 16777216) ∧
    (pcm ≠ [] →
      ((frameEvents (cycleTrace header pcm P pd bps interval)).map Prod.fst)[1]?
        = some 1) ∧
    List.Chain' (fun a b => b = (a + 1) % 16777216 ∧ (b = 0 ↔ 0xFFFFFF < a + 1))
      ((List.range (numPages pcm.length P)).map (fun i => (1 + i) % 16777216)) ∧
    (numPages pcm.length P ≤ 0xFFFFFF →
      ∀ s, s ∈ (List.range (numPages pcm.length P)).map (fun i => (1 + i) % 16777216) →
        s ≠ 0) := by
  have hfe := frameEvents_pageLoop pcm P pd bps 0 1 hP (by norm_num)
  have hmap : (frameEvents (cycleTrace header pcm P pd bps interval)).map Prod.fst
      = 0 :: (List.range (numPages pcm.length P)).map (fun i => (1 + i) % 16777216) := by
    unfold cycleTrace
    rw [frameEvents_cons_frame, frameEvents_append]
    have h0 : frameEvents [Emit.fileDone, Emit.sleep interval] = [] := rfl
    rw [h0, List.append_nil, List.map_cons, hfe, List.map_map]
    have h1 : pcm.length - 0 = pcm.length := by omega
    rw [h1]
    rfl
  refine ⟨hmap, ?_, ?_, ?_⟩
  · intro hne
    rw [hmap]
    have hn : 0 < numPages pcm.length P := by
      have hl : 0 < pcm.length := List.length_pos_of_ne_nil hne
      unfold numPages
      have h2 : P ≤ pcm.length + P - 1 := by omega
      have := Nat.div_le_div_right (c := P) h2
      rw [Nat.div_self hP] at this
      omega
    rcases Nat.exists_eq_add_of_lt hn with ⟨m, hm⟩
    rw [List.getElem?_cons_succ, hm]
    rw [List.range_succ_eq_map, List.map_cons, List.getElem?_cons_zero]
  · rcases hnum : numPages pcm.length P with _ | m
    · simp
    · rw [List.chain'_map]
      rw [List.chain'_range_succ]
      intro i _
      constructor
      · omega
      · omega
  · intro hn s hs
    rcases List.mem_map.mp hs with ⟨i, hi, hrfl⟩
    rcases List.mem_range.mp hi with hilt
    omega

/-- C3 witness at `header = [9]`, `pcm = [5, 6, 7]`, `P = 2`. -/
theorem cycle_sequence_invariant_witness :
    0 < 2 ∧
    ((frameEvents (cycleTrace [9] [5, 6, 7] 2 0 1 0)).map Prod.fst
       = 0 :: (List.range (numPages ([5, 6, 7] : List Nat).length 2)).map
           (fun i => (1 + i) % 16777216) ∧
     (([5, 6, 7] : List Nat) ≠ [] →
       ((frameEvents (cycleTrace [9] [5, 6, 7] 2 0 1 0)).map Prod.fst)[1]? = some 1) ∧
     List.Chain' (fun a b => b = (a + 1) % 16777216 ∧ (b = 0 ↔ 0xFFFFFF < a + 1))
       ((List.range (numPages ([5, 6, 7] : List Nat).length 2)).map
         (fun i => (1 + i) % 16777216)) ∧
     (numPages ([5, 6, 7] : List Nat).length 2 ≤ 0xFFFFFF →
       ∀ s, s ∈ (List.range (numPages ([5, 6, 7] : List Nat).length 2)).map
           (fun i => (1 + i) % 16777216) → s ≠ 0)) :=
  ⟨by decide, cycle_sequence_invariant [9] [5, 6, 7] 2 0 1 0 (by decide)⟩

/-- C3 counterexample: in a cycle over 2^24 one-byte pages the frame at
position 16777216 of the cycle — a page frame, not the header — carries
sequence 0, so sequence 0 is not reserved exclusively to the header
frame. -/
theorem cycle_sequence_zero_cex :
    ((frameEvents (cycleTrace [] (List.replicate 16777216 0) 1 0 1 0)).map
        Prod.fst)[16777216]? = some 0 := by
  have hfe := frameEvents_pageLoop (List.replicate 16777216 0) 1 0 1 0 1
    (by norm_num) (by norm_num)
  unfold cycleTrace
  rw [frameEvents_cons_frame, frameEvents_append]
  have h0 : frameEvents [Emit.fileDone, Emit.sleep (0:ℚ)] = [] := rfl
  rw [h0, List.append_nil, List.map_cons, hfe, List.map_map]
  have h1 : numPages ((List.replicate 16777216 (0:Nat)).length - 0) 1 = 16777216 := by
    rw [List.length_replicate]
    unfold numPages
    norm_num
  rw [h1]
  have h2 : (16777216 : Nat) = 16777215 + 1 := by norm_num
  rw [h2, List.getElem?_cons_succ]
  rw [List.getElem?_map, List.getElem?_range (by norm_num : (16777215 : Nat) < 16777216)]
  norm_num

/-- The interval-wait preamble of `body_gen` only sleeps, so the frames of a
fresh generator do not depend on the incoming nonlocal state at all. -/
lemma frameEvents_body_gen (header pcm : List Nat) (P : Nat) (pd : ℚ) (bps : Nat)
    (interval : ℚ) (st : GenState) (cycles : Nat) :
    frameEvents (body_gen header pcm P pd bps interval st cycles)
      = frameEvents (cyclesTrace header pcm P pd bps interval cycles) := by
  unfold body_gen
  rw [frameEvents_append]
  by_cases hw : st.in_interval_wait = true ∧ 0 < st.interval_wait_remaining
  · rw [if_pos hw]
    have h0 : frameEvents [Emit.sleep st.interval_wait_remaining] = [] := rfl
    rw [h0, List.nil_append]
  · rw [if_neg hw, frameEvents_nil, List.nil_append]

/-- C6: on every new connection attempt after a fault, the first frame sent
by the fresh `body_gen` generator is the header frame with sequence 0 and
the cycle restarts from the beginning of the file: the emitted frame
stream is identical to the one from the initial state, whatever offset,
sequence and interval-wait values the previous connection had reached. -/
theorem reconnect_header_restart (header pcm : List Nat) (P : Nat) (pd : ℚ) (bps : Nat)
    (interval : ℚ) (st : GenState) (cycles : Nat) (hc : 0 < cycles) :
    (frameEvents (body_gen header pcm P pd bps interval st cycles))[0]?
      = some (0, header) ∧
    frameEvents (body_gen header pcm P pd bps interval st cycles)
      = frameEvents (body_gen header pcm P pd bps interval GenState.init cycles) := by
  refine ⟨?_, by rw [frameEvents_body_gen, frameEvents_body_gen]⟩
  rw [frameEvents_body_gen]
  rcases cycles with _ | m
  · omega
  · show (frameEvents (cycleTrace header pcm P pd bps interval
        ++ cyclesTrace header pcm P pd bps interval m))[0]? = some (0, header)
    rw [frameEvents_append]
    unfold cycleTrace
    rw [frameEvents_cons_frame, List.cons_append, List.getElem?_cons_zero]

/-- C6 witness: one cycle from the carried-over state `(5, 7, true, 3)`. -/
theorem reconnect_header_restart_witness :
    0 < 1 ∧
    ((frameEvents (body_gen [9] [1, 2] 2 0 1 0 ⟨5, 7, true, 3⟩ 1))[0]? = some (0, [9]) ∧
     frameEvents (body_gen [9] [1, 2] 2 0 1 0 ⟨5, 7, true, 3⟩ 1)
       = frameEvents (body_gen [9] [1, 2] 2 0 1 0 GenState.init 1)) :=
  ⟨by decide, reconnect_header_restart [9] [1, 2] 2 0 1 0 ⟨5, 7, true, 3⟩ 1 (by decide)⟩

/-- C7 (amended): after every page — the final partial page included — the
page loop sleeps the fixed `page_dur = PAGE / bytes_per_sec`, and
`seconds_sent` grows by exactly `pageBytes / bytes_per_sec` per page; the
source does not scale the sleep of the final partial page by its actual
size. -/
theorem pacing_fixed_sleep (pcm : List Nat) (bps : Nat) :
    pageLoop pcm PAGE (page_dur bps) bps 0 1
      = ((List.range (numPages pcm.length PAGE)).map (fun i =>
          [Emit.frame ((1 + i) % 16777216) ((pcm.drop (i * PAGE)).take PAGE),
           Emit.addSeconds ((((pcm.drop (i * PAGE)).take PAGE).length : ℚ) / (bps : ℚ)),
           Emit.sleep (page_dur bps)])).flatten ∧
    page_dur bps = (PAGE : ℚ) / (bps : ℚ) := by
  constructor
  · rw [pageLoop_eq_flatten pcm PAGE (page_dur bps) bps pcm.length 0 1
      (by norm_num [PAGE]) (by norm_num) (by omega)]
    have h1 : pcm.length - 0 = pcm.length := by omega
    rw [h1]
    congr 1
    apply List.map_congr_left
    intro i _
    unfold pageBlock
    have h2 : 0 + i * PAGE = i * PAGE := by omega
    rw [h2]
    have h3 : min PAGE ((pcm.drop (i * PAGE)).take PAGE).length
        = ((pcm.drop (i * PAGE)).take PAGE).length := by
      rw [List.length_take]
      omega
    rw [h3]
  · rfl

/-- C7 counterexample: a 1-byte final page (1-byte PCM, page size 32768,
32768 bytes per second) is followed by a sleep of the full
`page_dur = 1` second, not the scaled `1 / 32768` seconds the claim
prescribes for a partial page. -/
theorem pacing_partial_page_cex :
    pageLoop [0] PAGE (page_dur 32768) 32768 0 1
      = [Emit.frame 1 [0], Emit.addSeconds ((1 : ℚ) / 32768),
         Emit.sleep (page_dur 32768)] ∧
    page_dur 32768 = 1 ∧ ((1 : ℚ) / 32768) ≠ page_dur 32768 := by
  refine ⟨?_, by norm_num [page_dur, PAGE], by norm_num [page_dur, PAGE]⟩
  rw [pageLoop.eq_def]
  rw [dif_pos (by norm_num [PAGE])]
  rw [pageLoop.eq_def]
  rw [dif_neg (by norm_num [PAGE])]
  norm_num [PAGE]

/-- The shape of the cycle for a 100000-byte PCM payload at the source page
size: header frame then pages of 32768, 32768, 32768 and 1696 bytes. -/
lemma scenario_a_shape (header pcm : List Nat) (pd : ℚ) (bps : Nat) (interval : ℚ)
    (hL : pcm.length = 100000) :
    (frameEvents (cycleTrace header pcm PAGE pd bps interval)).map
        (fun f => (f.1, f.2.length))
      = [(0, header.length), (1, 32768), (2, 32768), (3, 32768), (4, 1696)] := by
  have hfe := frameEvents_pageLoop pcm PAGE pd bps 0 1 (by norm_num [PAGE]) (by norm_num)
  unfold cycleTrace
  rw [frameEvents_cons_frame, frameEvents_append]
  have h0 : frameEvents [Emit.fileDone, Emit.sleep interval] = [] := rfl
  rw [h0, List.append_nil, List.map_cons, hfe, List.map_map]
  have h1 : numPages (pcm.length - 0) PAGE = 4 := by
    rw [hL]
    norm_num [numPages, PAGE]
  rw [h1]
  have h2 : List.range 4 = [0, 1, 2, 3] := rfl
  rw [h2]
  simp only [List.map_cons, List.map_nil, Function.comp]
  norm_num [List.length_take, List.length_drop, hL, PAGE]

/-- C8 (amended): for a PCM payload of exactly 100000 bytes at page size
32768, one cycle emits one header frame followed by exactly 4 page frames,
in order, with payload sizes 32768, 32768, 32768 and 1696 (the spec's 2696
is off by 1000: 100000 − 3·32768 = 1696). -/
theorem scenario_a (header pcm : List Nat) (pd : ℚ) (bps : Nat) (interval : ℚ)
    (hL : pcm.length = 100000) :
    (frameEvents (cycleTrace header pcm PAGE pd bps interval)).map
        (fun f => (f.1, f.2.length))
      = [(0, header.length), (1, 32768), (2, 32768), (3, 32768), (4, 1696)] :=
  scenario_a_shape header pcm pd bps interval hL

/-- C8 witness at `pcm = 100000 zero bytes`. -/
theorem scenario_a_witness :
    (List.replicate 100000 (0 : Nat)).length = 100000 ∧
    (frameEvents (cycleTrace [] (List.replicate 100000 (0 : Nat)) PAGE 0 1 0)).map
        (fun f => (f.1, f.2.length))
      = [(0, ([] : List Nat).length), (1, 32768), (2, 32768), (3, 32768), (4, 1696)] :=
  ⟨by rw [List.length_replicate],
   scenario_a [] (List.replicate 100000 0) 0 1 0 (by rw [List.length_replicate])⟩

/-- C8 counterexample: the 4th page frame of a 100000-byte cycle has payload
size 1696, not the 2696 the claim states. -/
theorem scenario_a_cex :
    ((frameEvents (cycleTrace [] (List.replicate 100000 (0 : Nat)) PAGE 0 1 0)).map
        (fun f => f.2.length))[4]? = some 1696 ∧ (1696 : Nat) ≠ 2696 := by
  have h := scenario_a_shape [] (List.replicate 100000 (0 : Nat)) 0 1 0
    (by rw [List.length_replicate])
  have h2 : ((frameEvents (cycleTrace [] (List.replicate 100000 (0 : Nat)) PAGE 0 1 0)).map
        (fun f => (f.1, f.2.length))).map Prod.snd
      = (frameEvents (cycleTrace [] (List.replicate 100000 (0 : Nat)) PAGE 0 1 0)).map
        (fun f => f.2.length) := by
    rw [List.map_map]
    apply List.map_congr_left
    intro a _
    rfl
  rw [← h2, h]
  decide

/-- C9 (amended): when the input contains the `b"data"` tag, `split_wav`
splits at the first occurrence: the header is everything through the tag
plus its 4-byte size field — it ends exactly 8 bytes past the start of the
tag whenever the input extends that far, and at end-of-input otherwise —
and the PCM part is the remaining bytes, the two concatenating back to the
input; when no tag occurs anywhere, `split_wav` reports the error. -/
theorem split_wav_spec (wav : List Nat) :
    (∀ idx, bytesFind dataTag wav = some idx →
      split_wav wav = some (wav.take (idx + 8), wav.drop (idx + 8)) ∧
      dataTag.isPrefixOf (wav.drop idx) = true ∧
      (∀ j, j < idx → dataTag.isPrefixOf (wav.drop j) = false) ∧
      (wav.take (idx + 8)).length = min (idx + 8) wav.length ∧
      wav.take (idx + 8) ++ wav.drop (idx + 8) = wav) ∧
    (bytesFind dataTag wav = none →
      split_wav wav = none ∧ ∀ j, dataTag.isPrefixOf (wav.drop j) = false) := by
  constructor
  · intro idx hfind
    rcases bytesFind_some dataTag wav idx hfind with ⟨h1, h2⟩
    refine ⟨?_, h1, h2, List.length_take _ _, List.take_append_drop _ _⟩
    unfold split_wav
    rw [hfind]
  · intro hfind
    refine ⟨?_, bytesFind_none dataTag wav hfind⟩
    unfold split_wav
    rw [hfind]

/-- C9 witness: a 12-byte input whose `"data"` tag starts at index 1, split
into a 9-byte header and a 3-byte PCM part. -/
theorem split_wav_spec_witness :
    split_wav [1, 100, 97, 116, 97, 2, 3, 4, 5, 6, 7, 8]
      = some (([1, 100, 97, 116, 97, 2, 3, 4, 5, 6, 7, 8] : List Nat).take 9,
              ([1, 100, 97, 116, 97, 2, 3, 4, 5, 6, 7, 8] : List Nat).drop 9) ∧
    dataTag.isPrefixOf (([1, 100, 97, 116, 97, 2, 3, 4, 5, 6, 7, 8] : List Nat).drop 1)
      = true :=
  ⟨((split_wav_spec [1, 100, 97, 116, 97, 2, 3, 4, 5, 6, 7, 8]).1 1 (by decide)).1,
   ((split_wav_spec [1, 100, 97, 116, 97, 2, 3, 4, 5, 6, 7, 8]).1 1 (by decide)).2.1⟩

/-- C9 counterexample: on the 4-byte input `b"data"` the tag starts at index
0 yet the returned header is the whole 4-byte input, ending 4 — not 8 —
bytes past the start of the tag. -/
theorem split_wav_truncated_cex :
    bytesFind dataTag [100, 97, 116, 97] = some 0 ∧
    split_wav [100, 97, 116, 97] = some ([100, 97, 116, 97], []) ∧
    (([100, 97, 116, 97] : List Nat).take (0 + 8)).length = 4 ∧ (4 : Nat) ≠ 0 + 8 := by
  decide
